import Mathlib

/-!
Verification development for the d2-stampede replay decoder.

The definitions below are a shallow embedding of the entity container,
serializer graph, field-path machinery and field-state tree of the
repository.  Rust `u32`/`u8` values are embedded as `Nat` with explicit
truncation (`% 2 ^ 32`, `% 256`) exactly where the source casts; fallible
Rust code (`Result`, panics, `unreachable!`) is embedded as `Option` /
`Except`.  Recursive walks over the serializer graph take an explicit
`fuel : Nat` argument and return a neutral value when the fuel runs out;
every theorem below quantifies over the fuel, and the source only ever
runs such walks on acyclic schemas, where some finite fuel suffices.
-/

namespace D2

/-- Field models, from `src/field.rs` (`enum FieldModels`). -/
inductive FieldModels where
  | simple
  | fixedArray
  | fixedTable
  | variableArray
  | variableTable
deriving DecidableEq, Repr

/-- Modelled from the spec: the decoder registry (spec 4.3) lives in
`decoder.rs` / `field_decoder.rs`, which are not under `src/`.  Only the
identity of a selected decoder matters to the claims, so the decoder
chosen by `Decoders::from_field(field, is_child)` is represented
opaquely by the field name together with the child flag, and the named
constant decoders (`Decoders::Boolean`, `Decoders::Unsigned`,
`Decoders::Default`) are constructors. -/
inductive Decoders where
  | boolean
  | unsigned
  | defaultDec
  | fieldDecoder (var_name : List Char) (child : Bool)
deriving DecidableEq, Repr

/-- Modelled from the spec: `Decoders::from_field` (decoder registry,
absent from `src/`) selects the leaf decoder for a field (`child =
false`) or the element decoder of its generic type (`child = true`). -/
def Decoders.from_field (var_name : List Char) (child : Bool) : Decoders :=
  Decoders.fieldDecoder var_name child

/-- The parts of the recursive `FieldType` descriptor
(spec 3, `field_type.rs`, not under `src/`) that the claims consume:
the base name, whether `array_size` is set, and whether the `generic`
element type is present. -/
structure FieldTypeM where
  base_name : List Char
  array_size_some : Bool
  generic_some : Bool
deriving DecidableEq, Repr

/-- One serializer row, from `src/field.rs` (`struct Field`), restricted
to the attributes the claims consume; the type parameter `S` is tied to
the serializer type below.  In the source the three decoder slots are
`Option<Decoders>` initialised to `Some(Decoders::Default)` by
`Field::new` and only ever overwritten with `Some`, so they are embedded
as plain `Decoders`. -/
structure FldData (S : Type) where
  var_name : List Char
  field_type : Option FieldTypeM
  serializer : Option S
  model : FieldModels
  decoder : Decoders
  base_decoder : Decoders
  child_decoder : Decoders

/-- A serializer: its ordered field list, from
`src/d2-stampede/src/serializer.rs` (`struct Serializer`).  The
`fp_cache` member of the source is a memoisation table for
`get_field_path_for_name` and has no semantic content, so it is not
modelled. -/
inductive SerT where
  | mk (fields : List (FldData SerT))

/-- A field of the serializer graph. -/
abbrev Fld := FldData SerT

/-- The field list of a serializer. -/
def SerT.fields : SerT → List Fld
  | .mk fs => fs

instance : Inhabited SerT := ⟨SerT.mk []⟩

instance : Inhabited Fld :=
  ⟨{ var_name := [], field_type := none, serializer := none,
     model := FieldModels.simple, decoder := Decoders.defaultDec,
     base_decoder := Decoders.defaultDec, child_decoder := Decoders.defaultDec }⟩

/-- A field path: in the source (`field_path.rs`)
a fixed array of seven slot indices plus a `last` cursor.  The source
array has capacity 7 and writing beyond it panics; the embedding uses a
total map from slot positions to indices, which agrees with the source
on every execution that does not panic.  Only the entries at positions
`0 .. last` are ever read back. -/
structure FieldPath where
  path : Nat → Nat
  last : Nat

/-- `FieldPath::new`: all slots zero, cursor at the root slot. -/
def FieldPath.new : FieldPath :=
  { path := fun _ => 0, last := 0 }

/-- Write slot `i` (`fp.path[i] = v`). -/
def FieldPath.set (fp : FieldPath) (i v : Nat) : FieldPath :=
  { fp with path := fun j => if j = i then v else fp.path j }

/-- Read slot `i` (`fp.path[i]`). -/
def FieldPath.get (fp : FieldPath) (i : Nat) : Nat :=
  fp.path i

/-- `fp.down()`: descend one level. -/
def FieldPath.down (fp : FieldPath) : FieldPath :=
  { fp with last := fp.last + 1 }

/-- `fp.up(n)`: ascend `n` levels (saturating, as `usize` subtraction
in the source never underflows on reachable inputs). -/
def FieldPath.up (fp : FieldPath) (n : Nat) : FieldPath :=
  { fp with last := fp.last - n }

/-- The meaningful content of a path: the indices at positions
`0 .. last`.  Two source paths are observationally equal iff these
agree (spec 3, FieldPath). -/
def FieldPath.indices (fp : FieldPath) : List Nat :=
  (List.range (fp.last + 1)).map fp.path

/-- The indices strictly above the cursor slot: positions `0 .. last-1`. -/
def FieldPath.pre (fp : FieldPath) : List Nat :=
  (List.range fp.last).map fp.path

/-- A terminal field value.  The source `FieldValue` is a tagged union
over twelve primitive kinds (spec 3); no claim inspects the payload, so
it is embedded as a bare `Nat` tag. -/
abbrev FieldValue := Nat

/-- A node of the sparse field-state tree: either a terminal value or a
nested state (source `States` in `field_state.rs`, not under `src/`;
modelled from the spec, spec 4.6: a sparse recursive vector whose slots
hold a child state or a terminal value). -/
inductive States where
  | value (v : FieldValue)
  | fieldState (children : List (Option States))

/-- A field state: the slot vector of one tree node. -/
abbrev FieldState := List (Option States)

/-- Modelled from the spec: `FieldState::get` / the walk of spec 4.6.
Starting from a node, follow one slot index per path position; absent
slots and terminal values cut the walk short. -/
def States.getNode : States → List Nat → Option States
  | s, [] => some s
  | States.fieldState children, i :: rest =>
    match children.getD i none with
    | some sub => States.getNode sub rest
    | none => none
  | States.value _, _ :: _ => none

/-- `state.get(fp)`: the node addressed by the indices of `fp`. -/
def FieldState.get (st : FieldState) (fp : FieldPath) : Option States :=
  States.getNode (States.fieldState st) fp.indices

/-- The node addressed by an explicit index list. -/
def FieldState.getAt (st : FieldState) (p : List Nat) : Option States :=
  States.getNode (States.fieldState st) p

/-- Modelled from the spec: `FieldState::get_value` (d2-stampede
`field.rs`, not under `src/`) returns the terminal value stored at the
path, if any (spec 4.6: `get(path)` returns the value if present). -/
def FieldState.get_value (st : FieldState) (fp : FieldPath) : Option FieldValue :=
  match FieldState.get st fp with
  | some (States.value v) => some v
  | _ => none

/-- `EntityEvents`, from `src/d2-stampede/src/entity.rs`. -/
inductive EntityEvents where
  | created
  | updated
  | deleted
deriving DecidableEq, Repr

/-- `EntityEvents::from_cmd`, from `src/d2-stampede/src/entity.rs`
lines 16-26.  The source is a `match` whose arm for any command other
than `0`, `2`, `3` is `unreachable!()`; that arm is embedded as
`none`. -/
def EntityEvents.from_cmd : Nat → Option EntityEvents
  | 0 => some EntityEvents.updated
  | 2 => some EntityEvents.created
  | 3 => some EntityEvents.deleted
  | _ => none

/-- The per-entity operations of the packet framing (spec 4.7). -/
inductive EntityOp where
  | update
  | leave
  | create
  | delete
deriving DecidableEq, Repr

/-- Modelled from the spec: the packet decoder (d2-stampede
`parser.rs` / `field_reader.rs`, not under `src/`) reads two command
bits per entity header and dispatches
`0b00 -> Update, 0b01 -> Leave, 0b10 -> Create, 0b11 -> Delete`
(spec 4.7). -/
def EntityOp.from_cmd : Nat → Option EntityOp
  | 0 => some EntityOp.update
  | 1 => some EntityOp.leave
  | 2 => some EntityOp.create
  | 3 => some EntityOp.delete
  | _ => none

/-- `Class`, from `class.rs` (not under `src/`; spec 3 records exactly
these components: `{ id: i32, name: string, serializer: Serializer }`).
The `i32` id is embedded as `Int`. -/
structure Class where
  id : Int
  name : List Char
  serializer : SerT

/-- `Entity`, from `src/d2-stampede/src/entity.rs` lines 121-127. -/
structure Entity where
  index : Nat
  serial : Nat
  cls : Class
  state : FieldState

/-- `Entity::new` (entity.rs line 130).  The source fields are `u32`;
the constructor truncates its `Nat` arguments accordingly. -/
def Entity.new (index serial : Nat) (c : Class) (st : FieldState) : Entity :=
  { index := index % 2 ^ 32, serial := serial % 2 ^ 32, cls := c, state := st }

/-- `Entity::index` (entity.rs line 139). -/
def Entity.indexFn (e : Entity) : Nat := e.index

/-- `Entity::serial` (entity.rs line 143). -/
def Entity.serialFn (e : Entity) : Nat := e.serial

/-- `Entity::handle` (entity.rs lines 147-149):
`self.serial << 14 | self.index` in `u32` arithmetic, where the bits
shifted past position 31 are discarded. -/
def Entity.handle (e : Entity) : Nat :=
  (e.serial <<< 14) % 2 ^ 32 ||| e.index

/-- `EntityError`, from `src/d2-stampede/src/entity.rs` lines 28-47.
`PropertyNameNotFound` carries the reconstructed property name, the
class name and the field path (the source formats the path into a
string; the embedding keeps the index list). -/
inductive EntityError where
  | indexNotFound (index : Nat)
  | handleNotFound (handle : Nat)
  | classIdNotFound (id : Int)
  | classNameNotFound (name : List Char)
  | propertyNameNotFound (name : List Char) (clsName : List Char) (fp : List Nat)
  | fieldPathNotFound
deriving DecidableEq, Repr

/-- `Entities`, from `src/d2-stampede/src/entity.rs` lines 49-60. -/
structure Entities where
  entities_vec : List (Option Entity)

/-- `Entities::default` (entity.rs lines 54-60): 8192 empty slots. -/
def Entities.default : Entities :=
  { entities_vec := List.replicate 8192 none }

/-- `Entities::iter` (entity.rs lines 88-90):
`entities_vec.iter().flatten()`. -/
def Entities.iter (es : Entities) : List Entity :=
  es.entities_vec.filterMap id

/-- `Entities::get_by_index` (entity.rs lines 93-98). -/
def Entities.get_by_index (es : Entities) (index : Nat) : Except EntityError Entity :=
  match (es.entities_vec.get? index).bind id with
  | some e => Except.ok e
  | none => Except.error (EntityError.indexNotFound index)

/-- `Entities::get_by_handle` (entity.rs lines 101-104): look up slot
`handle & 0x3fff`, converting any failure into `HandleNotFound`. -/
def Entities.get_by_handle (es : Entities) (handle : Nat) : Except EntityError Entity :=
  match Entities.get_by_index es (handle &&& 0x3fff) with
  | Except.ok e => Except.ok e
  | Except.error _ => Except.error (EntityError.handleNotFound handle)

/-- `Entities::get_by_class_id` (entity.rs lines 107-111). -/
def Entities.get_by_class_id (es : Entities) (cid : Int) : Except EntityError Entity :=
  match (Entities.iter es).find? (fun e => e.cls.id == cid) with
  | some e => Except.ok e
  | none => Except.error (EntityError.classIdNotFound cid)

/-- `Entities::get_by_class_name` (entity.rs lines 114-118). -/
def Entities.get_by_class_name (es : Entities) (name : List Char) : Except EntityError Entity :=
  match (Entities.iter es).find? (fun e => e.cls.name == name) with
  | some e => Except.ok e
  | none => Except.error (EntityError.classNameNotFound name)

/-- Modelled from the spec: the Create op of the packet decoder
(spec 4.7) builds the entity and stores it in slot `index` of the
container; writing outside the 8192-slot array would panic in the
source, embedded as `none`. -/
def Entities.create (es : Entities) (index serial : Nat) (c : Class)
    (st : FieldState) : Option Entities :=
  if index < es.entities_vec.length then
    some { entities_vec := es.entities_vec.set index (some (Entity.new index serial c st)) }
  else
    none

/-- Modelled from the spec: the Delete op clears slot `index`
(spec 4.7). -/
def Entities.deleteAt (es : Entities) (index : Nat) : Entities :=
  { entities_vec := es.entities_vec.set index none }

/-- Modelled from the spec: the Leave op performs no state change and
emits no event (spec 4.7: `leave(index)`: no state change, no event). -/
def Entities.leave (es : Entities) (_index : Nat) : Entities × Option EntityEvents :=
  (es, none)

/-- The decimal digits of `n`, zero-padded on the left to at least four
characters: the `format!("{:04}", n)` of the source. -/
def pad4 (n : Nat) : List Char :=
  let ds := Nat.toDigits 10 n
  List.replicate (4 - ds.length) '0' ++ ds

/-- Digit accumulation of `str::parse::<u8>`. -/
def parseDigits : List Char → Nat → Option Nat
  | [], acc => some acc
  | c :: rest, acc =>
    if c.isDigit then parseDigits rest (acc * 10 + (c.toNat - 48)) else none

/-- `str::parse::<u8>`: fails on an empty string, on any non-digit
character, and on values larger than 255. -/
def parseU8 (cs : List Char) : Option Nat :=
  match cs with
  | [] => none
  | _ =>
    match parseDigits cs 0 with
    | some v => if v ≤ 255 then some v else none
    | none => none

/-- `Field::set_model`, from `src/src/field.rs` lines 263-286.  The
model is stored first; then the decoders are bound by model.  The
`panic!("No generic")` for a `VariableArray` whose field type has no
generic element (and the `unwrap` on a missing `field_type`) are
embedded as `none`. -/
def Fld.set_model (f0 : Fld) (m : FieldModels) : Option Fld :=
  let f : Fld := { f0 with model := m }
  match m with
  | FieldModels.fixedArray =>
    some { f with decoder := Decoders.from_field f.var_name false }
  | FieldModels.fixedTable =>
    some { f with base_decoder := Decoders.boolean }
  | FieldModels.variableArray =>
    match f.field_type with
    | none => none
    | some ft =>
      if ft.generic_some then
        some { f with base_decoder := Decoders.unsigned,
                      child_decoder := Decoders.from_field f.var_name true }
      else none
  | FieldModels.variableTable =>
    some { f with base_decoder := Decoders.unsigned }
  | FieldModels.simple =>
    some { f with decoder := Decoders.from_field f.var_name false }

/-- The container base names of spec 4.4. -/
def vectorBaseNames : List (List Char) :=
  [String.toList "CUtlVector", String.toList "CNetworkUtlVectorBase",
   String.toList "CUtlVectorEmbeddedNetworkVar"]

/-- Modelled from the spec: the field-model assignment performed at
schema load (spec 4.4; the schema-load driver is not under `src/`).
`array_size` set: `FixedArray` if leaf-typed, else `FixedTable`;
vector base name: `VariableArray` if the element is leaf-typed, else
`VariableTable`; otherwise a field with a child serializer is a nested
record (`FixedTable`) and a field without one is `Simple`.  Following
spec 3, a field is leaf-typed exactly when it carries no child
serializer. -/
def Fld.decide_model (f : Fld) : FieldModels :=
  match f.field_type with
  | some ft =>
    if ft.array_size_some then
      if f.serializer.isSome then FieldModels.fixedTable else FieldModels.fixedArray
    else if ft.base_name ∈ vectorBaseNames then
      if f.serializer.isSome then FieldModels.variableTable else FieldModels.variableArray
    else if f.serializer.isSome then FieldModels.fixedTable
    else FieldModels.simple
  | none => if f.serializer.isSome then FieldModels.fixedTable else FieldModels.simple

/-- Schema load of one field: assign its model (spec 4.4) and bind its
decoders (`Field::set_model`). -/
def Fld.load (f : Fld) : Option Fld :=
  Fld.set_model f (Fld.decide_model f)

/-- The loop body of `Serializer::get_name_for_field_path`
(`src/d2-stampede/src/serializer.rs` lines 22-45), with the loop
counter `i` and the accumulated name made explicit.  Note that the
source breaks out of the loop on a `FixedTable` field without
descending into its child serializer. -/
def Serializer.name_loop : Nat → SerT → FieldPath → Nat → List Char → List Char
  | 0, _, _, _, acc => acc
  | fuel + 1, s, fp, i, acc =>
    let f := s.fields.getD (FieldPath.get fp i) default
    let acc := acc ++ f.var_name
    match f.model with
    | FieldModels.fixedArray | FieldModels.variableArray =>
      acc ++ ('.' :: pad4 (FieldPath.get fp (i + 1)))
    | FieldModels.fixedTable | FieldModels.simple => acc
    | FieldModels.variableTable =>
      let j := i + 1
      let acc := acc ++ ('.' :: pad4 (FieldPath.get fp j)) ++ ['.']
      Serializer.name_loop fuel (f.serializer.getD default) fp (j + 1) acc

/-- `Serializer::get_name_for_field_path` (serializer.rs lines 22-45). -/
def Serializer.get_name_for_field_path (fuel : Nat) (s : SerT) (fp : FieldPath) : List Char :=
  Serializer.name_loop fuel s fp 0 []

/-- Outcome of one pass of the inner field loop of
`Serializer::get_field_path_for_name`: success (`break 'outer`),
descent into a child serializer (`continue 'outer`), or an error (a
failed parse via `?`, the `bail!` after an unmatched pass, the
`unreachable!()` arm, or an out-of-range slice panic). -/
inductive FpnStep where
  | done (fp : FieldPath)
  | descend (s : SerT) (offset : Nat) (fp : FieldPath)
  | fail

/-- The inner `for (i, f)` loop of `Serializer::get_field_path_for_name`
(`src/d2-stampede/src/serializer.rs` lines 111-153).  Slot indices are
written as `u8` (`i as u8`, hence `% 256`).  For an array segment the
source parses `name[..offset]` — the prefix of the name up to and
including the dot — as a `u8`. -/
def Serializer.fpn_fields : List Fld → Nat → List Char → Nat → FieldPath → FpnStep
  | [], _, _, _, _ => FpnStep.fail
  | f :: rest, i, name, offset, fp =>
    let restName := name.drop offset
    if restName = f.var_name then
      FpnStep.done (FieldPath.set fp fp.last (i % 256))
    else if restName.getD f.var_name.length ' ' = '.' ∧
        restName.take f.var_name.length = f.var_name then
      let fp2 := FieldPath.down (FieldPath.set fp fp.last (i % 256))
      let offset2 := offset + f.var_name.length + 1
      match f.model with
      | FieldModels.fixedArray | FieldModels.variableArray =>
        match parseU8 (name.take offset2) with
        | some v => FpnStep.done (FieldPath.set fp2 fp2.last v)
        | none => FpnStep.fail
      | FieldModels.fixedTable =>
        FpnStep.descend (f.serializer.getD default) offset2 fp2
      | FieldModels.variableTable =>
        if offset2 + 4 ≤ name.length then
          match parseU8 ((name.drop offset2).take 4) with
          | some v =>
            FpnStep.descend (f.serializer.getD default) (offset2 + 5)
              (FieldPath.down (FieldPath.set fp2 fp2.last v))
          | none => FpnStep.fail
        else FpnStep.fail
      | FieldModels.simple => FpnStep.fail
    else
      Serializer.fpn_fields rest (i + 1) name offset fp

/-- The `'outer` loop of `Serializer::get_field_path_for_name`. -/
def Serializer.fpn_loop : Nat → SerT → List Char → Nat → FieldPath → Option FieldPath
  | 0, _, _, _, _ => none
  | fuel + 1, s, name, offset, fp =>
    match Serializer.fpn_fields s.fields 0 name offset fp with
    | FpnStep.done fp2 => some fp2
    | FpnStep.descend s2 offset2 fp2 => Serializer.fpn_loop fuel s2 name offset2 fp2
    | FpnStep.fail => none

/-- `Serializer::get_field_path_for_name` (serializer.rs lines
111-153).  The `fp_cache` memoisation of the source is transparent and
not modelled. -/
def Serializer.get_field_path_for_name (fuel : Nat) (s : SerT) (name : List Char) :
    Option FieldPath :=
  Serializer.fpn_loop fuel s name 0 FieldPath.new

/-- The loop of `Serializer::get_decoder_for_field_path`
(`src/d2-stampede/src/serializer.rs` lines 80-109), with the loop
counter made explicit: at each pass the counter has already been
incremented past the current field's slot. -/
def Serializer.dec_loop : Nat → SerT → FieldPath → Nat → Decoders
  | 0, _, _, _ => Decoders.defaultDec
  | fuel + 1, s, fp, i =>
    let f := s.fields.getD (FieldPath.get fp i) default
    let j := i + 1
    match f.model with
    | FieldModels.simple | FieldModels.fixedArray => f.decoder
    | FieldModels.fixedTable =>
      if fp.last + 1 = j then f.base_decoder
      else Serializer.dec_loop fuel (f.serializer.getD default) fp j
    | FieldModels.variableArray =>
      if fp.last = j then f.child_decoder else f.base_decoder
    | FieldModels.variableTable =>
      if fp.last ≤ j then f.base_decoder
      else Serializer.dec_loop fuel (f.serializer.getD default) fp (j + 1)

/-- `Serializer::get_decoder_for_field_path` (serializer.rs lines
80-109). -/
def Serializer.get_decoder_for_field_path (fuel : Nat) (s : SerT) (fp : FieldPath) : Decoders :=
  Serializer.dec_loop fuel s fp 0

/-- The `FixedArray` emission loop of `Field::get_field_paths`
(`src/src/field.rs` lines 193-199): one path per present slot, in
ascending slot order. -/
def emitPresent (children : FieldState) (i : Nat) (fp : FieldPath) : List FieldPath :=
  match children with
  | [] => []
  | v :: rest =>
    (if v.isSome then [FieldPath.set fp fp.last i] else []) ++ emitPresent rest (i + 1) fp

/-- The `VariableArray` emission loop of `Field::get_field_paths`
(`src/src/field.rs` lines 223-227): one path per slot, present or not
(the loop binds the slot contents `v` but never tests it). -/
def emitAll (children : FieldState) (i : Nat) (fp : FieldPath) : List FieldPath :=
  match children with
  | [] => []
  | _ :: rest =>
    FieldPath.set fp fp.last i :: emitAll rest (i + 1) fp

mutual
/-- `Field::get_field_paths`, from `src/src/field.rs` lines 182-261.
The caller has already written this field's slot index at the cursor
position.  The pure embedding passes the cursor by value; the source
mutates it in place and restores it (`down` / `up`) before returning,
and every slot position at or below an emitted path's `last` is written
before the path is cloned, so the emitted index lists agree. -/
def Fld.get_field_paths : Nat → Fld → FieldPath → FieldState → List FieldPath
  | 0, _, _, _ => []
  | fuel + 1, f, fp, st =>
    match f.model with
    | FieldModels.simple => [fp]
    | FieldModels.fixedArray =>
      match FieldState.get st fp with
      | some (States.fieldState children) => emitPresent children 0 (FieldPath.down fp)
      | _ => []
    | FieldModels.fixedTable =>
      match FieldState.get st fp with
      | some (States.fieldState children) =>
        Serializer.get_field_paths fuel (f.serializer.getD default) (FieldPath.down fp) children
      | _ => []
    | FieldModels.variableArray =>
      match FieldState.get st fp with
      | some (States.fieldState children) => emitAll children 0 (FieldPath.down fp)
      | _ => []
    | FieldModels.variableTable =>
      match FieldState.get st fp with
      | some (States.fieldState children) =>
        Fld.vt_rows fuel (f.serializer.getD default) children 0
          (FieldPath.down (FieldPath.down fp))
      | _ => []

/-- `Serializer::get_field_paths`, from `src/d2-stampede/src/serializer.rs`
lines 155-164 (the flat map over the field list; the recursive port in
`src/src/serializer.rs` has the same shape). -/
def Serializer.get_field_paths : Nat → SerT → FieldPath → FieldState → List FieldPath
  | 0, _, _, _ => []
  | fuel + 1, s, fp, st => Serializer.gfp_fields fuel s.fields 0 fp st

/-- The per-field loop of `Serializer::get_field_paths`: write field
index `i` at the cursor slot, collect that field's paths, continue. -/
def Serializer.gfp_fields : Nat → List Fld → Nat → FieldPath → FieldState → List FieldPath
  | 0, _, _, _, _ => []
  | _ + 1, [], _, _, _ => []
  | fuel + 1, f :: rest, i, fp, st =>
    Fld.get_field_paths fuel f (FieldPath.set fp fp.last i) st ++
      Serializer.gfp_fields fuel rest (i + 1) fp st

/-- The `VariableTable` row loop of `Field::get_field_paths`
(`src/src/field.rs` lines 242-252): for each present row holding a
nested state, write the row index one position above the cursor and
collect the child serializer's paths from that row's sub-state. -/
def Fld.vt_rows : Nat → SerT → FieldState → Nat → FieldPath → List FieldPath
  | 0, _, _, _, _ => []
  | _ + 1, _, [], _, _ => []
  | fuel + 1, s, v :: rest, i, fp =>
    (match v with
     | some (States.fieldState sub) =>
       Serializer.get_field_paths fuel s (FieldPath.set fp (fp.last - 1) i) sub
     | _ => []) ++ Fld.vt_rows fuel s rest (i + 1) fp
end

/-- Strict lexicographic order on index lists (a shorter list precedes
any proper extension of itself). -/
def lexLt : List Nat → List Nat → Bool
  | [], [] => false
  | [], _ :: _ => true
  | _ :: _, [] => false
  | a :: s, b :: t => decide (a < b) || (a == b && lexLt s t)

/-- Strict lexicographic order on the index lists of two field paths. -/
def pathLt (p q : FieldPath) : Prop :=
  lexLt p.indices q.indices = true

/-- `Entity::get_property_by_field_path` (entity.rs lines 192-203). -/
def Entity.get_property_by_field_path (fuel : Nat) (e : Entity) (fp : FieldPath) :
    Except EntityError FieldValue :=
  match FieldState.get_value e.state fp with
  | some v => Except.ok v
  | none =>
    Except.error (EntityError.propertyNameNotFound
      (Serializer.get_name_for_field_path fuel e.cls.serializer fp)
      e.cls.name fp.indices)

/-- `Entity::get_property_by_name` (entity.rs lines 188-190): resolve
the name to a path, then read the path; a failed resolution surfaces as
a `FieldPathNotFound` error. -/
def Entity.get_property_by_name (fuel : Nat) (e : Entity) (name : List Char) :
    Except EntityError FieldValue :=
  match Serializer.get_field_path_for_name fuel e.cls.serializer name with
  | some fp => Entity.get_property_by_field_path fuel e fp
  | none => Except.error EntityError.fieldPathNotFound

/-! ### Concrete instances used by the witnesses and counterexamples -/

/-- A leaf (non-container, serializer-free) field type. -/
def exLeafType : FieldTypeM :=
  { base_name := String.toList "int32", array_size_some := false, generic_some := false }

/-- Build an example field with the given name, model and child serializer. -/
def mkExField (n : String) (m : FieldModels) (s : Option SerT) : Fld :=
  { var_name := String.toList n, field_type := some exLeafType, serializer := s,
    model := m, decoder := Decoders.defaultDec, base_decoder := Decoders.defaultDec,
    child_decoder := Decoders.defaultDec }

/-- A child serializer with the single simple field `m_cellX`. -/
def exChildSer : SerT := SerT.mk [mkExField "m_cellX" FieldModels.simple none]

/-- A serializer whose only field `CBodyComponent` is a fixed table over
`exChildSer`. -/
def exParentSer : SerT := SerT.mk [mkExField "CBodyComponent" FieldModels.fixedTable (some exChildSer)]

/-- The dotted property name `CBodyComponent.m_cellX`. -/
def exName : List Char := String.toList "CBodyComponent.m_cellX"

/-- A serializer whose only field `m_vec` is a variable array of leaves. -/
def exVaSer : SerT := SerT.mk [mkExField "m_vec" FieldModels.variableArray none]

/-- A field state whose root slot 0 holds a sub-state with one absent slot. -/
def exVaState : FieldState := [some (States.fieldState [none])]

/-- A serializer whose only field `m_arr` is a fixed array of leaves. -/
def exFaSer : SerT := SerT.mk [mkExField "m_arr" FieldModels.fixedArray none]

/-- The single field of `exFaSer`. -/
def exFaField : Fld := mkExField "m_arr" FieldModels.fixedArray none

/-- A field state whose root slot 0 holds a sub-state with slot 0 absent
and slot 1 holding the value 7. -/
def exFaState : FieldState := [some (States.fieldState [none, some (States.value 7)])]

/-- The path emitted for slot 1 of `exFaState` by the fixed-array
traversal (indices `[0, 1]`). -/
def exFaPath : FieldPath :=
  FieldPath.set (FieldPath.down (FieldPath.set FieldPath.new 0 0)) 1 1

/-- A serializer with the single simple field `m_iHealth`. -/
def exSimpleSer : SerT := SerT.mk [mkExField "m_iHealth" FieldModels.simple none]

/-- An example class over `exSimpleSer`. -/
def exClass : Class := { id := 1, name := String.toList "C_Hero", serializer := exSimpleSer }

/-- The entity created at slot 5 with serial 1. -/
def exEntity5 : Entity := Entity.new 5 1 exClass []

/-- A container holding `exEntity5` in slot 5 of 8192. -/
def exEntities : Entities :=
  { entities_vec := (List.replicate 8192 (none : Option Entity)).set 5 (some exEntity5) }

/-- A variable-array field used by the C5 witness. -/
def c5Field : Fld := mkExField "m_vecAbilities" FieldModels.variableArray none

/-- A serializer holding `c5Field`. -/
def c5Ser : SerT := SerT.mk [c5Field]

/-- A path of depth two addressing element 0 of field 0. -/
def c5Path : FieldPath := FieldPath.down (FieldPath.set FieldPath.new 0 0)

/-- A schema field whose type is `CUtlVector< ... >` with a generic
element type present and no child serializer. -/
def c7VaField : Fld :=
  { var_name := String.toList "m_vecAbilities",
    field_type := some { base_name := String.toList "CUtlVector",
                         array_size_some := false, generic_some := true },
    serializer := none, model := FieldModels.simple,
    decoder := Decoders.defaultDec, base_decoder := Decoders.defaultDec,
    child_decoder := Decoders.defaultDec }

/-- `c7VaField` after schema load. -/
def c7VaLoaded : Fld := (Fld.load c7VaField).getD default

/-- A schema field with a child serializer and a plain record type. -/
def c7FtField : Fld :=
  { var_name := String.toList "CBodyComponent",
    field_type := some { base_name := String.toList "CBodyComponentPoint",
                         array_size_some := false, generic_some := false },
    serializer := some exChildSer, model := FieldModels.simple,
    decoder := Decoders.defaultDec, base_decoder := Decoders.defaultDec,
    child_decoder := Decoders.defaultDec }

/-- `c7FtField` after schema load. -/
def c7FtLoaded : Fld := (Fld.load c7FtField).getD default

/-- An entity of class `exClass` whose field state is empty. -/
def c8Entity : Entity := { index := 3, serial := 7, cls := exClass, state := [] }

/-- The property name `m_iHealth`. -/
def c8Name : List Char := String.toList "m_iHealth"

/-- The path that `m_iHealth` resolves to on `exSimpleSer`. -/
def c8Fp : FieldPath := FieldPath.set FieldPath.new 0 0

/-- Well-formedness of an entity container: the slot vector has its
fixed capacity of 8192 and every stored entity records the index of its
own slot (spec 4.7: Create stores the entity built for `index` in slot
`index`). -/
def Entities.wf (es : Entities) : Prop :=
  es.entities_vec.length = 8192 ∧
  ∀ i e, es.entities_vec.get? i = some (some e) → e.index = i

/-! ### Helper lemmas -/

lemma FieldPath.down_pre (fp : FieldPath) : (FieldPath.down fp).pre = fp.indices := rfl

lemma FieldPath.down_down_pre (fp : FieldPath) :
    (List.range ((FieldPath.down (FieldPath.down fp)).last - 1)).map
      (FieldPath.down (FieldPath.down fp)).path = fp.indices := rfl

lemma FieldPath.indices_set_last (fp : FieldPath) (i : Nat) :
    (FieldPath.set fp fp.last i).indices = fp.pre ++ [i] := by
  unfold FieldPath.indices FieldPath.pre
  rw [List.range_succ, List.map_append]
  congr 1
  · apply List.map_congr_left
    intro j hj
    have hne : j ≠ fp.last := Nat.ne_of_lt (List.mem_range.mp hj)
    simp [FieldPath.set, hne]
  · simp [FieldPath.set]

lemma FieldPath.pre_set_last (fp : FieldPath) (i : Nat) :
    (FieldPath.set fp fp.last i).pre = fp.pre := by
  unfold FieldPath.pre
  apply List.map_congr_left
  intro j hj
  have hne : j ≠ fp.last := Nat.ne_of_lt (List.mem_range.mp hj)
  simp [FieldPath.set, hne]

lemma FieldPath.pre_set_pred (fp : FieldPath) (k : Nat) (h : 1 ≤ fp.last) :
    (FieldPath.set fp (fp.last - 1) k).pre =
      (List.range (fp.last - 1)).map fp.path ++ [k] := by
  unfold FieldPath.pre
  have hlast : fp.last = (fp.last - 1) + 1 := by omega
  rw [show (FieldPath.set fp (fp.last - 1) k).last = (fp.last - 1) + 1 from by
        simp [FieldPath.set]; omega,
      List.range_succ, List.map_append]
  congr 1
  · apply List.map_congr_left
    intro j hj
    have hne : j ≠ fp.last - 1 := Nat.ne_of_lt (List.mem_range.mp hj)
    simp [FieldPath.set, hne]
  · simp [FieldPath.set]

lemma lexLt_append (a s t : List Nat) : lexLt (a ++ s) (a ++ t) = lexLt s t := by
  induction a with
  | nil => rfl
  | cons x a ih => simp [lexLt, ih, Nat.lt_irrefl]

lemma lexLt_cons_lt {k k2 : Nat} (s t : List Nat) (h : k < k2) :
    lexLt (k :: s) (k2 :: t) = true := by
  simp [lexLt, h]

lemma lor_mul_pow_add (a b n : Nat) (hb : b < 2 ^ n) :
    a * 2 ^ n ||| b = a * 2 ^ n + b := by
  apply Nat.eq_of_testBit_eq
  intro k
  rw [Nat.testBit_lor]
  rcases Nat.lt_or_ge k n with hk | hk
  · have h2 : (2 : Nat) ^ k * 2 ^ (n - k) = 2 ^ n := pow_mul_pow_sub 2 (le_of_lt hk)
    have f1 : a * 2 ^ n = 2 ^ k * (a * 2 ^ (n - k)) := by rw [← h2]; ring
    have d1 : a * 2 ^ n / 2 ^ k = a * 2 ^ (n - k) := by
      rw [f1, Nat.mul_div_cancel_left _ (Nat.pos_pow_of_pos k (by norm_num))]
    have d2 : (a * 2 ^ n + b) / 2 ^ k = a * 2 ^ (n - k) + b / 2 ^ k := by
      rw [f1, Nat.mul_add_div (Nat.pos_pow_of_pos k (by norm_num))]
    have ceven : a * 2 ^ (n - k) % 2 = 0 := by
      have h3 : a * 2 ^ (n - k) = 2 * (a * 2 ^ (n - k - 1)) := by
        have h4 : (2 : Nat) ^ (n - k) = 2 * 2 ^ (n - k - 1) := by
          rw [← pow_succ']
          congr 1
          omega
        rw [h4]; ring
      omega
    rw [Nat.testBit_to_div_mod, Nat.testBit_to_div_mod, Nat.testBit_to_div_mod, d1, d2]
    have h5 : (a * 2 ^ (n - k) + b / 2 ^ k) % 2 = b / 2 ^ k % 2 := by omega
    have h6 : ¬ (a * 2 ^ (n - k) % 2 = 1) := by omega
    simp [h5, h6]
  · have tb0 : b.testBit k = false :=
      Nat.testBit_lt_two_pow (lt_of_lt_of_le hb (Nat.pow_le_pow_right (by norm_num) hk))
    have h2 : (2 : Nat) ^ n * 2 ^ (k - n) = 2 ^ k := pow_mul_pow_sub 2 hk
    have d3 : a * 2 ^ n / 2 ^ k = a / 2 ^ (k - n) := by
      rw [← h2, ← Nat.div_div_eq_div_mul,
        Nat.mul_div_cancel _ (Nat.pos_pow_of_pos n (by norm_num))]
    have d4 : (a * 2 ^ n + b) / 2 ^ k = a / 2 ^ (k - n) := by
      have h7 : (a * 2 ^ n + b) / 2 ^ n = a := by
        rw [mul_comm a, Nat.mul_add_div (Nat.pos_pow_of_pos n (by norm_num)),
          Nat.div_eq_of_lt hb, Nat.add_zero]
      rw [← h2, ← Nat.div_div_eq_div_mul, h7]
    rw [tb0, Bool.or_false, Nat.testBit_to_div_mod, Nat.testBit_to_div_mod, d3, d4]

/-! ### Claim theorems -/

/-- C6: the two command bits of a per-entity header map to the
operations `0b00 → Update`, `0b01 → Leave`, `0b10 → Create`,
`0b11 → Delete`; the event kinds produced for `0b00`, `0b10`, `0b11`
are `Updated`, `Created`, `Deleted` respectively, `0b01` produces no
event, and the Leave op changes no state. -/
theorem cmd_bits_dispatch :
    EntityOp.from_cmd 0 = some EntityOp.update ∧
    EntityOp.from_cmd 1 = some EntityOp.leave ∧
    EntityOp.from_cmd 2 = some EntityOp.create ∧
    EntityOp.from_cmd 3 = some EntityOp.delete ∧
    EntityEvents.from_cmd 0 = some EntityEvents.updated ∧
    EntityEvents.from_cmd 2 = some EntityEvents.created ∧
    EntityEvents.from_cmd 3 = some EntityEvents.deleted ∧
    EntityEvents.from_cmd 1 = none ∧
    (∀ es i, Entities.leave es i = (es, none)) :=
  ⟨rfl, rfl, rfl, rfl, rfl, rfl, rfl, rfl, fun _ _ => rfl⟩

/-- C3: in every well-formed entity container (reachable from the empty
container by Create and Delete ops, which the last two conjuncts show
preserve well-formedness), every stored entity `e` satisfies
`e.handle() = (e.serial() << 14) | e.index()` (in the source's `u32`
arithmetic, and as the exact sum `serial * 2^14 + index` once the
serial fits its 18 bits) and `e.index() < 8192`. -/
theorem entity_handle_and_index_bound :
    (∀ es, Entities.wf es → ∀ i e, es.entities_vec.get? i = some (some e) →
      Entity.handle e = (e.serial <<< 14) % 2 ^ 32 ||| e.index ∧
      e.index < 8192 ∧
      (e.serial < 2 ^ 18 → Entity.handle e = e.serial * 2 ^ 14 + e.index)) ∧
    Entities.wf Entities.default ∧
    (∀ es index serial c st es2, Entities.wf es →
      Entities.create es index serial c st = some es2 → Entities.wf es2) ∧
    (∀ es index, Entities.wf es → Entities.wf (Entities.deleteAt es index)) := by
  refine ⟨?_, ?_, ?_, ?_⟩
  · intro es hwf i e hget
    have hidx : e.index = i := hwf.2 i e hget
    have hlt : i < es.entities_vec.length := by
      rcases List.get?_eq_some.mp hget with ⟨hl, _⟩
      exact hl
    have hbound : e.index < 8192 := by
      have hlen := hwf.1
      omega
    refine ⟨rfl, hbound, ?_⟩
    intro hser
    have h14 : e.serial <<< 14 = e.serial * 2 ^ 14 := Nat.shiftLeft_eq _ _
    have hlt32 : e.serial * 2 ^ 14 < 2 ^ 32 := by
      calc e.serial * 2 ^ 14 < 2 ^ 18 * 2 ^ 14 :=
            (Nat.mul_lt_mul_right (by norm_num)).mpr hser
        _ = 2 ^ 32 := by norm_num
    unfold Entity.handle
    rw [h14, Nat.mod_eq_of_lt hlt32,
      lor_mul_pow_add _ _ 14 (lt_of_lt_of_le hbound (by norm_num))]
  · constructor
    · show (List.replicate 8192 (none : Option Entity)).length = 8192
      rw [List.length_replicate]
    · intro i e h
      have hmem := List.get?_mem h
      have heq := List.eq_of_mem_replicate hmem
      simp at heq
  · intro es index serial c st es2 hwf hcr
    unfold Entities.create at hcr
    by_cases hlen : index < es.entities_vec.length
    · rw [if_pos hlen] at hcr
      cases hcr
      constructor
      · simpa [List.length_set] using hwf.1
      · intro j e hj
        by_cases hje : index = j
        · subst hje
          rw [List.get?_set_eq_of_lt _ hlen] at hj
          cases hj
          have hsmall : index < 2 ^ 32 := by
            have hlen8 := hwf.1
            have : index < 8192 := by omega
            omega
          simpa [Entity.new] using Nat.mod_eq_of_lt hsmall
        · rw [List.get?_set_ne _ _ hje] at hj
          exact hwf.2 j e hj
    · rw [if_neg hlen] at hcr
      exact absurd hcr (by simp)
  · intro es index hwf
    constructor
    · simpa [Entities.deleteAt, List.length_set] using hwf.1
    · intro j e hj
      by_cases hje : index = j
      · subst hje
        unfold Entities.deleteAt at hj
        by_cases hlen : index < es.entities_vec.length
        · rw [List.get?_set_eq_of_lt _ hlen] at hj
          exact absurd hj (by simp)
        · rw [List.get?_eq_none.mpr (by simp [List.length_set]; omega)] at hj
          exact absurd hj (by simp)
      · unfold Entities.deleteAt at hj
        rw [List.get?_set_ne _ _ hje] at hj
        exact hwf.2 j e hj

/-- C3 witness: the entity created at slot 5 with serial 1 satisfies the
handle formula (also as an exact sum) and the index bound. -/
theorem entity_handle_and_index_bound_witness :
    Entity.handle exEntity5 = (exEntity5.serial <<< 14) % 2 ^ 32 ||| exEntity5.index ∧
    exEntity5.index < 8192 ∧
    Entity.handle exEntity5 = exEntity5.serial * 2 ^ 14 + exEntity5.index := by
  have hcr : Entities.create Entities.default 5 1 exClass [] = some exEntities := by
    unfold Entities.create
    rw [if_pos]
    · rfl
    · show 5 < (List.replicate 8192 (none : Option Entity)).length
      rw [List.length_replicate]
      norm_num
  have hwf : Entities.wf exEntities :=
    entity_handle_and_index_bound.2.2.1 Entities.default 5 1 exClass [] exEntities
      entity_handle_and_index_bound.2.1 hcr
  have h := entity_handle_and_index_bound.1 exEntities hwf 5 exEntity5 ?_
  · exact ⟨h.1, h.2.1, h.2.2 (by decide)⟩
  · show ((List.replicate 8192 (none : Option Entity)).set 5 (some exEntity5)).get? 5 =
      some (some exEntity5)
    rw [List.get?_set_eq_of_lt]
    rw [List.length_replicate]
    norm_num

/-- C9: `get_by_index` is total: out-of-range indices (at or above the
container capacity 8192) and empty slots yield `IndexNotFound`, occupied
slots yield the entity, and no input panics (the embedding is a total
function).  Consequently `get_by_handle` is total as well: the mask
`0x3fff` keeps the slot index at or below 16383, and a masked index at
or above 8192 yields `HandleNotFound`. -/
theorem get_by_index_total :
    (∀ (es : Entities) (i h : Nat) (e : Entity), es.entities_vec.length = 8192 →
      (8192 ≤ i → Entities.get_by_index es i = Except.error (EntityError.indexNotFound i)) ∧
      (es.entities_vec.get? i = some none →
        Entities.get_by_index es i = Except.error (EntityError.indexNotFound i)) ∧
      (es.entities_vec.get? i = some (some e) → Entities.get_by_index es i = Except.ok e) ∧
      (8192 ≤ h &&& 0x3fff →
        Entities.get_by_handle es h = Except.error (EntityError.handleNotFound h)) ∧
      h &&& 0x3fff ≤ 0x3fff) ∧
    Entities.default.entities_vec.length = 8192 := by
  constructor
  · intro es i h e hlen
    refine ⟨?_, ?_, ?_, ?_, Nat.and_le_right⟩
    · intro hi
      unfold Entities.get_by_index
      rw [List.get?_eq_none.mpr (by omega)]
      rfl
    · intro hsl
      unfold Entities.get_by_index
      rw [hsl]
      rfl
    · intro hsl
      unfold Entities.get_by_index
      rw [hsl]
      rfl
    · intro hm
      unfold Entities.get_by_handle
      have h1 : Entities.get_by_index es (h &&& 0x3fff) =
          Except.error (EntityError.indexNotFound (h &&& 0x3fff)) := by
        unfold Entities.get_by_index
        rw [List.get?_eq_none.mpr (by omega)]
        rfl
      rw [h1]
  · show (List.replicate 8192 (none : Option Entity)).length = 8192
    rw [List.length_replicate]

/-- C9 witness: the empty container yields `IndexNotFound` at index
9000 and `HandleNotFound` for handle 16383, whose masked slot index
16383 is beyond the capacity. -/
theorem get_by_index_total_witness :
    Entities.get_by_index Entities.default 9000 =
      Except.error (EntityError.indexNotFound 9000) ∧
    Entities.get_by_handle Entities.default 16383 =
      Except.error (EntityError.handleNotFound 16383) := by
  have h := get_by_index_total.1 Entities.default 9000 16383 exEntity5 get_by_index_total.2
  exact ⟨h.1 (by norm_num), h.2.2.2.1 (by decide)⟩

/-- C1 counterexample: `exEntities` stores at slot 5 the entity with
serial 1; looking it up through the handle `(2 << 14) | 5`, whose serial
bits decode to 2, succeeds and returns that entity instead of
`HandleNotFound`, refuting the claim that a serial-mismatched handle
lookup never silently succeeds. -/
theorem get_by_handle_serial_mismatch_counterexample :
    Entities.get_by_handle exEntities ((2 <<< 14) ||| 5) = Except.ok exEntity5 ∧
    ((2 <<< 14) ||| 5) >>> 14 = 2 ∧ exEntity5.serial = 1 ∧ (2 : Nat) ≠ 1 := by
  refine ⟨?_, by decide, by decide, by decide⟩
  have h5 : ((2 <<< 14) ||| 5 : Nat) &&& 0x3fff = 5 := by decide
  have hget : exEntities.entities_vec.get? 5 = some (some exEntity5) := by
    show ((List.replicate 8192 (none : Option Entity)).set 5 (some exEntity5)).get? 5 =
      some (some exEntity5)
    rw [List.get?_set_eq_of_lt]
    rw [List.length_replicate]
    norm_num
  unfold Entities.get_by_handle Entities.get_by_index
  rw [h5, hget]
  rfl

/-- C1 (amended): `get_by_handle(h)` looks up slot `h & 0x3fff` only:
it returns whatever entity occupies that slot, regardless of the serial
bits `h >> 14` (in particular also when they differ from the stored
entity's serial), and returns `HandleNotFound` exactly when the slot
lookup fails. -/
theorem get_by_handle_slot_lookup : ∀ (es : Entities) (h : Nat) (e : Entity),
    (Entities.get_by_handle es h = Except.ok e ↔
      (es.entities_vec.get? (h &&& 0x3fff)).bind id = some e) ∧
    ((es.entities_vec.get? (h &&& 0x3fff)).bind id = none →
      Entities.get_by_handle es h = Except.error (EntityError.handleNotFound h)) ∧
    ((es.entities_vec.get? (h &&& 0x3fff)).bind id = some e →
      h >>> 14 ≠ e.serial →
      Entities.get_by_handle es h = Except.ok e) := by
  intro es h e
  unfold Entities.get_by_handle Entities.get_by_index
  rcases hx : (es.entities_vec.get? (h &&& 0x3fff)).bind id with _ | e2
  · simp [hx]
  · simp [hx]
    exact fun h1 _ => h1

/-- C1 witness: an empty slot gives `HandleNotFound`, and the occupied
slot 5 is returned through handle `(2 << 14) | 5` although its serial
bits 2 differ from the stored serial 1. -/
theorem get_by_handle_slot_lookup_witness :
    Entities.get_by_handle Entities.default 5 =
      Except.error (EntityError.handleNotFound 5) ∧
    Entities.get_by_handle exEntities ((2 <<< 14) ||| 5) = Except.ok exEntity5 := by
  have hnone : (List.replicate 8192 (none : Option Entity)).get? 5 = some none := by
    rw [List.get?_eq_getElem?, List.getElem?_replicate]
    norm_num
  have hget : exEntities.entities_vec.get? 5 = some (some exEntity5) := by
    show ((List.replicate 8192 (none : Option Entity)).set 5 (some exEntity5)).get? 5 =
      some (some exEntity5)
    rw [List.get?_set_eq_of_lt]
    rw [List.length_replicate]
    norm_num
  constructor
  · refine (get_by_handle_slot_lookup Entities.default 5 exEntity5).2.1 ?_
    show ((List.replicate 8192 (none : Option Entity)).get? (5 &&& 0x3fff)).bind id = none
    rw [show (5 : Nat) &&& 0x3fff = 5 from by decide, hnone]
    rfl
  · refine (get_by_handle_slot_lookup exEntities ((2 <<< 14) ||| 5) exEntity5).2.2 ?_ (by decide)
    show (exEntities.entities_vec.get? (((2 <<< 14) ||| 5) &&& 0x3fff)).bind id =
      some exEntity5
    rw [show ((2 <<< 14) ||| 5 : Nat) &&& 0x3fff = 5 from by decide, hget]
    rfl

/-- Tables decided by the spec's model assignment always carry a child
serializer. -/
lemma decide_model_table_serializer (f : Fld)
    (h : Fld.decide_model f = FieldModels.fixedTable ∨
         Fld.decide_model f = FieldModels.variableTable) :
    f.serializer.isSome = true := by
  rcases hs : f.serializer with _ | s
  · exfalso
    unfold Fld.decide_model at h
    rcases hft : f.field_type with _ | ft <;> rw [hft] at h <;> simp [hs] at h
    by_cases h1 : ft.array_size_some = true <;>
      by_cases h2 : ft.base_name ∈ vectorBaseNames <;>
      simp [h1, h2] at h
  · rfl

/-- `set_model` keeps the assigned model and leaves the serializer and
field type untouched. -/
lemma set_model_fields (f : Fld) (m : FieldModels) (f2 : Fld)
    (h : Fld.set_model f m = some f2) :
    f2.model = m ∧ f2.serializer = f.serializer ∧ f2.field_type = f.field_type := by
  cases m <;> simp only [Fld.set_model] at h
  case simple => cases h; exact ⟨rfl, rfl, rfl⟩
  case fixedArray => cases h; exact ⟨rfl, rfl, rfl⟩
  case fixedTable => cases h; exact ⟨rfl, rfl, rfl⟩
  case variableTable => cases h; exact ⟨rfl, rfl, rfl⟩
  case variableArray =>
    rcases hft : f.field_type with _ | ft <;> simp only [hft] at h
    · exact absurd h (by simp)
    · by_cases hg : ft.generic_some = true
      · rw [if_pos hg] at h
        cases h
        exact ⟨rfl, rfl, rfl⟩
      · rw [if_neg hg] at h
        exact absurd h (by simp)

/-- `set_model` accepts `VariableArray` only when the generic element
type is present. -/
lemma set_model_va_generic (f f2 : Fld)
    (h : Fld.set_model f FieldModels.variableArray = some f2) :
    ∃ ft, f.field_type = some ft ∧ ft.generic_some = true := by
  simp only [Fld.set_model] at h
  rcases hft : f.field_type with _ | ft <;> simp only [hft] at h
  · exact absurd h (by simp)
  · by_cases hg : ft.generic_some = true
    · exact ⟨ft, rfl, hg⟩
    · rw [if_neg hg] at h
      exact absurd h (by simp)

/-- C7: every field accepted by schema load satisfies the invariants:
a `VariableArray` field has its generic element type present (the model
assignment fails — panics — otherwise), and a `FixedTable` or
`VariableTable` field has a child serializer present. -/
theorem loaded_field_invariants : ∀ (f f2 : Fld), Fld.load f = some f2 →
    (f2.model = FieldModels.variableArray →
      ∃ ft, f2.field_type = some ft ∧ ft.generic_some = true) ∧
    ((f2.model = FieldModels.fixedTable ∨ f2.model = FieldModels.variableTable) →
      f2.serializer.isSome = true) := by
  intro f f2 hload
  unfold Fld.load at hload
  have hsm := set_model_fields f _ f2 hload
  constructor
  · intro hva
    have hdm : Fld.decide_model f = FieldModels.variableArray := by
      rw [← hsm.1, hva]
    rw [hdm] at hload
    rcases set_model_va_generic f f2 hload with ⟨ft, hft, hg⟩
    exact ⟨ft, by rw [hsm.2.2, hft], hg⟩
  · intro htab
    have hdm : Fld.decide_model f = FieldModels.fixedTable ∨
        Fld.decide_model f = FieldModels.variableTable := by
      rcases htab with h | h
      · exact Or.inl (by rw [← hsm.1, h])
      · exact Or.inr (by rw [← hsm.1, h])
    rw [hsm.2.1]
    exact decide_model_table_serializer f hdm

/-- C7 witness: the `CUtlVector` field with a generic element loads as
`VariableArray` with the generic present, and the record field with a
child serializer loads as `FixedTable` with the serializer present. -/
theorem loaded_field_invariants_witness :
    (∃ ft, c7VaLoaded.field_type = some ft ∧ ft.generic_some = true) ∧
    c7FtLoaded.serializer.isSome = true := by
  constructor
  · exact (loaded_field_invariants c7VaField c7VaLoaded rfl).1 rfl
  · exact (loaded_field_invariants c7FtField c7FtLoaded rfl).2 (Or.inl rfl)

/-- C8: when a name resolves to a field path on the entity's class but
the entity's field state holds no value there,
`get_property_by_name` returns (rather than panics) the
`PropertyNameNotFound` error carrying the reconstructed property name,
the class name and the path; the entity is passed by shared reference
in the source and the embedding is a pure function, so its state is
unchanged. -/
theorem property_not_found_on_missing_value :
    ∀ (fuel : Nat) (e : Entity) (name : List Char) (fp : FieldPath),
      Serializer.get_field_path_for_name fuel e.cls.serializer name = some fp →
      FieldState.get_value e.state fp = none →
      Entity.get_property_by_name fuel e name =
        Except.error (EntityError.propertyNameNotFound
          (Serializer.get_name_for_field_path fuel e.cls.serializer fp)
          e.cls.name fp.indices) := by
  intro fuel e name fp h1 h2
  unfold Entity.get_property_by_name
  rw [h1]
  show Entity.get_property_by_field_path fuel e fp = _
  unfold Entity.get_property_by_field_path
  rw [h2]

/-- C8 witness: `m_iHealth` resolves on `exSimpleSer`, the empty field
state holds no value for it, and the lookup returns the
`PropertyNameNotFound` error. -/
theorem property_not_found_on_missing_value_witness :
    Entity.get_property_by_name 2 c8Entity c8Name =
      Except.error (EntityError.propertyNameNotFound
        (Serializer.get_name_for_field_path 2 c8Entity.cls.serializer c8Fp)
        c8Entity.cls.name c8Fp.indices) :=
  property_not_found_on_missing_value 2 c8Entity c8Name c8Fp rfl rfl

/-- C5: decoder bindings after `set_model` are exactly by model
(Simple/FixedArray bind the leaf decoder, FixedTable binds the Boolean
existence-bit base decoder, VariableArray binds the unsigned-varint
base decoder and the element child decoder, VariableTable binds the
unsigned-varint base decoder), and decoder resolution along a field
path returns the field's base decoder for a path addressing a
container node (the table itself, the variable array itself, or a
variable-table row), the child decoder for a path addressing a
variable-array element, and the leaf decoder for Simple/FixedArray
fields. -/
theorem decoder_binding_by_model :
    (∀ f f2 : Fld, Fld.set_model f FieldModels.simple = some f2 →
      f2.decoder = Decoders.from_field f.var_name false) ∧
    (∀ f f2 : Fld, Fld.set_model f FieldModels.fixedArray = some f2 →
      f2.decoder = Decoders.from_field f.var_name false) ∧
    (∀ f f2 : Fld, Fld.set_model f FieldModels.fixedTable = some f2 →
      f2.base_decoder = Decoders.boolean) ∧
    (∀ f f2 : Fld, Fld.set_model f FieldModels.variableArray = some f2 →
      f2.base_decoder = Decoders.unsigned ∧
      f2.child_decoder = Decoders.from_field f.var_name true) ∧
    (∀ f f2 : Fld, Fld.set_model f FieldModels.variableTable = some f2 →
      f2.base_decoder = Decoders.unsigned) ∧
    (∀ (fuel : Nat) (s : SerT) (fp : FieldPath) (i : Nat),
      ((s.fields.getD (FieldPath.get fp i) default).model = FieldModels.simple ∨
        (s.fields.getD (FieldPath.get fp i) default).model = FieldModels.fixedArray →
        Serializer.dec_loop (fuel + 1) s fp i =
          (s.fields.getD (FieldPath.get fp i) default).decoder) ∧
      ((s.fields.getD (FieldPath.get fp i) default).model = FieldModels.fixedTable →
        fp.last = i →
        Serializer.dec_loop (fuel + 1) s fp i =
          (s.fields.getD (FieldPath.get fp i) default).base_decoder) ∧
      ((s.fields.getD (FieldPath.get fp i) default).model = FieldModels.variableArray →
        fp.last = i →
        Serializer.dec_loop (fuel + 1) s fp i =
          (s.fields.getD (FieldPath.get fp i) default).base_decoder) ∧
      ((s.fields.getD (FieldPath.get fp i) default).model = FieldModels.variableArray →
        fp.last = i + 1 →
        Serializer.dec_loop (fuel + 1) s fp i =
          (s.fields.getD (FieldPath.get fp i) default).child_decoder) ∧
      ((s.fields.getD (FieldPath.get fp i) default).model = FieldModels.variableTable →
        fp.last ≤ i + 1 →
        Serializer.dec_loop (fuel + 1) s fp i =
          (s.fields.getD (FieldPath.get fp i) default).base_decoder)) := by
  refine ⟨?_, ?_, ?_, ?_, ?_, ?_⟩
  · intro f f2 h
    simp only [Fld.set_model] at h
    cases h
    rfl
  · intro f f2 h
    simp only [Fld.set_model] at h
    cases h
    rfl
  · intro f f2 h
    simp only [Fld.set_model] at h
    cases h
    rfl
  · intro f f2 h
    simp only [Fld.set_model] at h
    rcases hft : f.field_type with _ | ft <;> simp only [hft] at h
    · exact absurd h (by simp)
    · by_cases hg : ft.generic_some = true
      · rw [if_pos hg] at h
        cases h
        exact ⟨rfl, rfl⟩
      · rw [if_neg hg] at h
        exact absurd h (by simp)
  · intro f f2 h
    simp only [Fld.set_model] at h
    cases h
    rfl
  · intro fuel s fp i
    refine ⟨?_, ?_, ?_, ?_, ?_⟩
    · intro hm
      simp only [Serializer.dec_loop]
      rcases hm with hm | hm <;> rw [hm]
    · intro hm hlast
      simp only [Serializer.dec_loop]
      rw [hm, if_pos (show fp.last + 1 = i + 1 by omega)]
    · intro hm hlast
      simp only [Serializer.dec_loop]
      rw [hm, if_neg (show ¬ fp.last = i + 1 by omega)]
    · intro hm hlast
      simp only [Serializer.dec_loop]
      rw [hm, if_pos (show fp.last = i + 1 by omega)]
    · intro hm hlast
      simp only [Serializer.dec_loop]
      rw [hm, if_pos (show fp.last ≤ i + 1 by omega)]

/-- C5 witness: on the one-field variable-array serializer, the path
addressing the element resolves to the child decoder and the path
addressing the container resolves to the base decoder; and `set_model`
on the `CUtlVector` field binds the unsigned base decoder. -/
theorem decoder_binding_by_model_witness :
    Serializer.dec_loop 1 c5Ser c5Path 0 =
      (c5Ser.fields.getD (FieldPath.get c5Path 0) default).child_decoder ∧
    Serializer.dec_loop 1 c5Ser (FieldPath.set FieldPath.new 0 0) 0 =
      (c5Ser.fields.getD
        (FieldPath.get (FieldPath.set FieldPath.new 0 0) 0) default).base_decoder ∧
    (∃ f2, Fld.set_model c7VaField FieldModels.variableArray = some f2 ∧
      f2.base_decoder = Decoders.unsigned) := by
  refine ⟨?_, ?_, ?_⟩
  · exact (decoder_binding_by_model.2.2.2.2.2 0 c5Ser c5Path 0).2.2.2.1 rfl rfl
  · exact (decoder_binding_by_model.2.2.2.2.2 0 c5Ser (FieldPath.set FieldPath.new 0 0)
      0).2.2.1 rfl rfl
  · exact ⟨(Fld.set_model c7VaField FieldModels.variableArray).getD default, rfl,
      (decoder_binding_by_model.2.2.2.1 c7VaField
        ((Fld.set_model c7VaField FieldModels.variableArray).getD default) rfl).1⟩

/-- C2 (evaluation at the failing input): on a class whose serializer
has the fixed-table field `CBodyComponent` over a child with the simple
field `m_cellX`, the name `CBodyComponent.m_cellX` resolves to the
field path `[0, 0]`, yet mapping that path back yields only
`CBodyComponent` — the round trip is not the identity; and on a
variable-array field `m_vec` the documented element name `m_vec.0003`
does not resolve at all, because the source parses the slice
`name[..offset]` (which still contains the field name and the dot)
instead of the index digits. -/
theorem name_roundtrip_failure :
    (Serializer.get_field_path_for_name 8 exParentSer exName).map FieldPath.indices =
      some [0, 0] ∧
    (Serializer.get_field_path_for_name 8 exParentSer exName).map
      (Serializer.get_name_for_field_path 8 exParentSer) =
      some (String.toList "CBodyComponent") ∧
    String.toList "CBodyComponent" ≠ exName ∧
    Serializer.get_field_path_for_name 8 exVaSer (String.toList "m_vec.0003") = none := by
  exact ⟨rfl, rfl, by decide, rfl⟩

/-- Flattening a list of options equals reading the slots in ascending
index order. -/
lemma filterMap_id_eq_range {α : Type} (l : List (Option α)) :
    l.filterMap id = (List.range l.length).filterMap
      (fun i => (l.get? i).bind id) := by
  induction l with
  | nil => rfl
  | cons o t ih =>
    rcases o with _ | a <;>
      simp [List.range_succ_eq_map, List.filterMap_cons, List.filterMap_map,
        Function.comp_def, ih]

/-- `find?` over a flattened option list finds exactly the value of the
first present, matching slot. -/
lemma find?_filterMap_id {α : Type} (l : List (Option α)) (p : α → Bool) (e : α) :
    ((l.filterMap id).find? p = some e) ↔
      ∃ i, l.get? i = some (some e) ∧ p e = true ∧
        ∀ j, j < i → ∀ x, l.get? j = some (some x) → p x = false := by
  induction l with
  | nil => simp
  | cons o t ih =>
    rcases o with _ | a
    · rw [show ((none :: t : List (Option α)).filterMap id) = t.filterMap id from by simp,
        ih]
      constructor
      · rintro ⟨i, h1, h2, h3⟩
        refine ⟨i + 1, by simpa using h1, h2, ?_⟩
        intro j hj x hx
        rcases j with _ | j
        · exact absurd hx (by simp)
        · exact h3 j (by omega) x (by simpa using hx)
      · rintro ⟨i, h1, h2, h3⟩
        rcases i with _ | i
        · exact absurd h1 (by simp)
        · exact ⟨i, by simpa using h1, h2,
            fun j hj x hx => h3 (j + 1) (by omega) x (by simpa using hx)⟩
    · rw [show ((some a :: t : List (Option α)).filterMap id) = a :: t.filterMap id from
        by simp]
      by_cases hpa : p a = true
      · rw [List.find?_cons_of_pos _ hpa]
        constructor
        · intro h
          have hae : a = e := by simpa using h
          subst hae
          exact ⟨0, by simp, hpa, fun j hj x hx => absurd hj (by omega)⟩
        · rintro ⟨i, h1, h2, h3⟩
          rcases i with _ | i
          · have : a = e := by simpa using h1
            rw [this]
          · exact absurd hpa (by simpa using h3 0 (by omega) a (by simp))
      · rw [List.find?_cons_of_neg _ hpa, ih]
        constructor
        · rintro ⟨i, h1, h2, h3⟩
          refine ⟨i + 1, by simpa using h1, h2, ?_⟩
          intro j hj x hx
          rcases j with _ | j
          · have hxa : x = a := by simpa using hx.symm
            subst hxa
            simpa using hpa
          · exact h3 j (by omega) x (by simpa using hx)
        · rintro ⟨i, h1, h2, h3⟩
          rcases i with _ | i
          · have hae : a = e := by simpa using h1
            subst hae
            exact absurd h2 hpa
          · exact ⟨i, by simpa using h1, h2,
              fun j hj x hx => h3 (j + 1) (by omega) x (by simpa using hx)⟩

/-- C10: `Entities::iter` yields exactly the occupied slots in ascending
slot order, and the class-id / class-name lookups return the matching
live entity with the lowest slot index, or `ClassIdNotFound` /
`ClassNameNotFound` when no live entity matches. -/
theorem iter_and_class_lookups :
    (∀ es : Entities, Entities.iter es =
      (List.range es.entities_vec.length).filterMap
        (fun i => (es.entities_vec.get? i).bind id)) ∧
    (∀ (es : Entities) (cid : Int) (e : Entity),
      Entities.get_by_class_id es cid = Except.ok e ↔
        ∃ i, es.entities_vec.get? i = some (some e) ∧ e.cls.id = cid ∧
          ∀ j, j < i → ∀ x, es.entities_vec.get? j = some (some x) → x.cls.id ≠ cid) ∧
    (∀ (es : Entities) (cid : Int),
      Entities.get_by_class_id es cid =
          Except.error (EntityError.classIdNotFound cid) ↔
        ∀ e ∈ Entities.iter es, e.cls.id ≠ cid) ∧
    (∀ (es : Entities) (nm : List Char) (e : Entity),
      Entities.get_by_class_name es nm = Except.ok e ↔
        ∃ i, es.entities_vec.get? i = some (some e) ∧ e.cls.name = nm ∧
          ∀ j, j < i → ∀ x, es.entities_vec.get? j = some (some x) →
            x.cls.name ≠ nm) ∧
    (∀ (es : Entities) (nm : List Char),
      Entities.get_by_class_name es nm =
          Except.error (EntityError.classNameNotFound nm) ↔
        ∀ e ∈ Entities.iter es, e.cls.name ≠ nm) := by
  refine ⟨fun es => filterMap_id_eq_range _, ?_, ?_, ?_, ?_⟩
  · intro es cid e
    unfold Entities.get_by_class_id
    rcases hf : (Entities.iter es).find? (fun x => x.cls.id == cid) with _ | e2 <;>
      simp only [hf]
    · constructor
      · intro h
        exact absurd h (by simp)
      · rintro ⟨i, h1, h2, h3⟩
        exfalso
        have hmem : e ∈ Entities.iter es :=
          List.mem_filterMap.mpr ⟨some e, List.get?_mem h1, rfl⟩
        have hp := List.find?_eq_none.mp hf e hmem
        exact hp (by simpa using h2)
    · constructor
      · intro h
        have he2 : e2 = e := by simpa using h
        subst he2
        rcases (find?_filterMap_id es.entities_vec
            (fun x => x.cls.id == cid) e2).mp hf with ⟨i, h1, h2, h3⟩
        exact ⟨i, h1, by simpa using h2,
          fun j hj x hx => by simpa using h3 j hj x hx⟩
      · rintro ⟨i, h1, h2, h3⟩
        have hfe : ((es.entities_vec.filterMap id).find?
            (fun x => x.cls.id == cid)) = some e :=
          (find?_filterMap_id es.entities_vec (fun x => x.cls.id == cid) e).mpr
            ⟨i, h1, by simpa using h2, fun j hj x hx => by simpa using h3 j hj x hx⟩
        have : some e2 = some e := by rw [← hf]; exact hfe
        simpa using this
  · intro es cid
    unfold Entities.get_by_class_id
    rcases hf : (Entities.iter es).find? (fun x => x.cls.id == cid) with _ | e2 <;>
      simp only [hf]
    · constructor
      · intro _ e he
        have hp := List.find?_eq_none.mp hf e he
        simpa using hp
      · intro _
        trivial
    · constructor
      · intro h
        exact absurd h (by simp)
      · intro hall
        exfalso
        have hmem := List.mem_of_find?_eq_some hf
        have hp := List.find?_some hf
        exact hall e2 hmem (by simpa using hp)
  · intro es nm e
    unfold Entities.get_by_class_name
    rcases hf : (Entities.iter es).find? (fun x => x.cls.name == nm) with _ | e2 <;>
      simp only [hf]
    · constructor
      · intro h
        exact absurd h (by simp)
      · rintro ⟨i, h1, h2, h3⟩
        exfalso
        have hmem : e ∈ Entities.iter es :=
          List.mem_filterMap.mpr ⟨some e, List.get?_mem h1, rfl⟩
        have hp := List.find?_eq_none.mp hf e hmem
        exact hp (by simpa using h2)
    · constructor
      · intro h
        have he2 : e2 = e := by simpa using h
        subst he2
        rcases (find?_filterMap_id es.entities_vec
            (fun x => x.cls.name == nm) e2).mp hf with ⟨i, h1, h2, h3⟩
        exact ⟨i, h1, by simpa using h2,
          fun j hj x hx => by simpa using h3 j hj x hx⟩
      · rintro ⟨i, h1, h2, h3⟩
        have hfe : ((es.entities_vec.filterMap id).find?
            (fun x => x.cls.name == nm)) = some e :=
          (find?_filterMap_id es.entities_vec (fun x => x.cls.name == nm) e).mpr
            ⟨i, h1, by simpa using h2, fun j hj x hx => by simpa using h3 j hj x hx⟩
        have : some e2 = some e := by rw [← hf]; exact hfe
        simpa using this
  · intro es nm
    unfold Entities.get_by_class_name
    rcases hf : (Entities.iter es).find? (fun x => x.cls.name == nm) with _ | e2 <;>
      simp only [hf]
    · constructor
      · intro _ e he
        have hp := List.find?_eq_none.mp hf e he
        simpa using hp
      · intro _
        trivial
    · constructor
      · intro h
        exact absurd h (by simp)
      · intro hall
        exfalso
        have hmem := List.mem_of_find?_eq_some hf
        have hp := List.find?_some hf
        exact hall e2 hmem (by simpa using hp)

/-- C10 witness: in the container holding only `exEntity5` (class id 1)
at slot 5, the class-id lookup returns it, and the lookup for the
absent class id 2 reports `ClassIdNotFound`. -/
theorem iter_and_class_lookups_witness :
    Entities.get_by_class_id exEntities 1 = Except.ok exEntity5 ∧
    Entities.get_by_class_id Entities.default 2 =
      Except.error (EntityError.classIdNotFound 2) := by
  constructor
  · refine (iter_and_class_lookups.2.1 exEntities 1 exEntity5).mpr ⟨5, ?_, rfl, ?_⟩
    · show ((List.replicate 8192 (none : Option Entity)).set 5 (some exEntity5)).get? 5 =
        some (some exEntity5)
      rw [List.get?_set_eq_of_lt]
      rw [List.length_replicate]
      norm_num
    · intro j hj x hx
      exfalso
      have hn : exEntities.entities_vec.get? j = some none := by
        show ((List.replicate 8192 (none : Option Entity)).set 5
          (some exEntity5)).get? j = some none
        rw [List.get?_set_ne _ _ (by omega)]
        rw [List.get?_eq_getElem?, List.getElem?_replicate, if_pos (by omega)]
      rw [hn] at hx
      exact absurd hx (by simp)
  · refine (iter_and_class_lookups.2.2.1 Entities.default 2).mpr ?_
    intro e he
    exfalso
    have hmem : (some e) ∈ (List.replicate 8192 (none : Option Entity)) :=
      List.mem_filterMap.mp he |>.elim (fun a ha => by
        rcases ha with ⟨ha1, ha2⟩
        rw [show a = some e from by simpa using ha2] at ha1
        exact ha1)
    have := List.eq_of_mem_replicate hmem
    simp at this

/-- Walking a concatenated path is the composition of the two walks. -/
lemma getNode_append (a : List Nat) : ∀ (s : States) (b : List Nat),
    States.getNode s (a ++ b) = (States.getNode s a).bind (fun n => States.getNode n b) := by
  induction a with
  | nil =>
    intro s b
    simp [States.getNode]
  | cons i rest ih =>
    intro s b
    cases s with
    | value v => simp [States.getNode]
    | fieldState children =>
      simp only [List.cons_append, States.getNode]
      rcases h : children.getD i none with _ | sub
      · simp
      · exact ih sub b

/-- The fixed-array emission loop: one path per present slot, with
strictly ascending element indices. -/
lemma emitPresent_spec (children : FieldState) : ∀ (i0 : Nat) (fp : FieldPath),
    (∀ p ∈ emitPresent children i0 fp, ∃ k, i0 ≤ k ∧
      p.indices = fp.pre ++ [k] ∧ children.getD (k - i0) none ≠ none) ∧
    List.Pairwise pathLt (emitPresent children i0 fp) := by
  induction children with
  | nil =>
    intro i0 fp
    constructor
    · intro p hp
      simp [emitPresent] at hp
    · simp [emitPresent]
  | cons v rest ih =>
    intro i0 fp
    constructor
    · intro p hp
      simp only [emitPresent] at hp
      rcases List.mem_append.mp hp with hl | hr
      · rcases hv : v.isSome with _ | _
        · rw [hv] at hl
          simp at hl
        · rw [hv] at hl
          simp only [if_true] at hl
          have hpe : p = FieldPath.set fp fp.last i0 := by simpa using hl
          refine ⟨i0, le_refl i0, by rw [hpe]; exact FieldPath.indices_set_last fp i0, ?_⟩
          simp only [Nat.sub_self, List.getD_cons_zero]
          exact Option.ne_none_iff_isSome.mpr hv
      · rcases (ih (i0 + 1) fp).1 p hr with ⟨k, hk, hind, hpres⟩
        refine ⟨k, by omega, hind, ?_⟩
        have hkk : k - i0 = (k - (i0 + 1)) + 1 := by omega
        rw [hkk]
        simpa using hpres
    · simp only [emitPresent]
      rw [List.pairwise_append]
      refine ⟨?_, (ih (i0 + 1) fp).2, ?_⟩
      · rcases hv : v.isSome with _ | _ <;> simp
      · intro p hp q hq
        rcases hv : v.isSome with _ | _
        · rw [hv] at hp
          simp at hp
        · rw [hv] at hp
          simp only [if_true] at hp
          have hpe : p = FieldPath.set fp fp.last i0 := by simpa using hp
          rcases (ih (i0 + 1) fp).1 q hq with ⟨k, hk, hind, _⟩
          unfold pathLt
          rw [hpe, FieldPath.indices_set_last, hind, lexLt_append]
          exact lexLt_cons_lt [] _ (by omega)

/-- The variable-array emission loop: one path per slot, present or
not, with strictly ascending element indices. -/
lemma emitAll_spec (children : FieldState) : ∀ (i0 : Nat) (fp : FieldPath),
    (∀ p ∈ emitAll children i0 fp, ∃ k, i0 ≤ k ∧ p.indices = fp.pre ++ [k]) ∧
    List.Pairwise pathLt (emitAll children i0 fp) := by
  induction children with
  | nil =>
    intro i0 fp
    constructor
    · intro p hp
      simp [emitAll] at hp
    · simp [emitAll]
  | cons v rest ih =>
    intro i0 fp
    constructor
    · intro p hp
      simp only [emitAll] at hp
      rcases List.mem_cons.mp hp with hl | hr
      · exact ⟨i0, le_refl i0, by rw [hl]; exact FieldPath.indices_set_last fp i0⟩
      · rcases (ih (i0 + 1) fp).1 p hr with ⟨k, hk, hind⟩
        exact ⟨k, by omega, hind⟩
    · simp only [emitAll]
      rw [List.pairwise_cons]
      refine ⟨?_, (ih (i0 + 1) fp).2⟩
      intro q hq
      rcases (ih (i0 + 1) fp).1 q hq with ⟨k, hk, hind⟩
      unfold pathLt
      rw [FieldPath.indices_set_last, hind, lexLt_append]
      exact lexLt_cons_lt [] _ (by omega)

/-- Shape and ordering of the traversal output, for all four mutually
recursive traversal functions: every emitted path extends the cursor
prefix, and the emitted list is strictly increasing in lexicographic
order of indices. -/
lemma gfp_spec : ∀ fuel : Nat,
    (∀ (f : Fld) (fp : FieldPath) (st : FieldState),
      (∀ p ∈ Fld.get_field_paths fuel f fp st, ∃ suf, p.indices = fp.indices ++ suf) ∧
      List.Pairwise pathLt (Fld.get_field_paths fuel f fp st)) ∧
    (∀ (s : SerT) (fp : FieldPath) (st : FieldState),
      (∀ p ∈ Serializer.get_field_paths fuel s fp st,
        ∃ k suf, p.indices = fp.pre ++ k :: suf) ∧
      List.Pairwise pathLt (Serializer.get_field_paths fuel s fp st)) ∧
    (∀ (l : List Fld) (i0 : Nat) (fp : FieldPath) (st : FieldState),
      (∀ p ∈ Serializer.gfp_fields fuel l i0 fp st,
        ∃ k suf, i0 ≤ k ∧ p.indices = fp.pre ++ k :: suf) ∧
      List.Pairwise pathLt (Serializer.gfp_fields fuel l i0 fp st)) ∧
    (∀ (s : SerT) (rows : FieldState) (i0 : Nat) (fp : FieldPath), 1 ≤ fp.last →
      (∀ p ∈ Fld.vt_rows fuel s rows i0 fp,
        ∃ k suf, i0 ≤ k ∧
          p.indices = (List.range (fp.last - 1)).map fp.path ++ k :: suf) ∧
      List.Pairwise pathLt (Fld.vt_rows fuel s rows i0 fp)) := by
  intro fuel
  induction fuel with
  | zero =>
    refine ⟨?_, ?_, ?_, ?_⟩
    · intro f fp st
      exact ⟨fun p hp => by simp [Fld.get_field_paths] at hp,
        by simp [Fld.get_field_paths]⟩
    · intro s fp st
      exact ⟨fun p hp => by simp [Serializer.get_field_paths] at hp,
        by simp [Serializer.get_field_paths]⟩
    · intro l i0 fp st
      exact ⟨fun p hp => by simp [Serializer.gfp_fields] at hp,
        by simp [Serializer.gfp_fields]⟩
    · intro s rows i0 fp hfp
      exact ⟨fun p hp => by simp [Fld.vt_rows] at hp, by simp [Fld.vt_rows]⟩
  | succ fuel ih =>
    obtain ⟨ihF, ihS, ihL, ihV⟩ := ih
    refine ⟨?_, ?_, ?_, ?_⟩
    · intro f fp st
      rcases hm : f.model with _ | _ | _ | _ | _ <;> simp only [Fld.get_field_paths, hm]
      · constructor
        · intro p hp
          have hpe : p = fp := by simpa using hp
          exact ⟨[], by simp [hpe]⟩
        · simp
      · rcases hg : FieldState.get st fp with _ | node
        · exact ⟨fun p hp => by simp at hp, by simp⟩
        · rcases node with v | children
          · exact ⟨fun p hp => by simp at hp, by simp⟩
          · constructor
            · intro p hp
              rcases (emitPresent_spec children 0 (FieldPath.down fp)).1 p hp with
                ⟨k, _, hind, _⟩
              exact ⟨[k], by rw [hind, FieldPath.down_pre]⟩
            · exact (emitPresent_spec children 0 (FieldPath.down fp)).2
      · rcases hg : FieldState.get st fp with _ | node
        · exact ⟨fun p hp => by simp at hp, by simp⟩
        · rcases node with v | children
          · exact ⟨fun p hp => by simp at hp, by simp⟩
          · constructor
            · intro p hp
              rcases (ihS (f.serializer.getD default) (FieldPath.down fp) children).1 p hp
                with ⟨k, suf, hind⟩
              exact ⟨k :: suf, by rw [hind, FieldPath.down_pre]⟩
            · exact (ihS (f.serializer.getD default) (FieldPath.down fp) children).2
      · rcases hg : FieldState.get st fp with _ | node
        · exact ⟨fun p hp => by simp at hp, by simp⟩
        · rcases node with v | children
          · exact ⟨fun p hp => by simp at hp, by simp⟩
          · constructor
            · intro p hp
              rcases (emitAll_spec children 0 (FieldPath.down fp)).1 p hp with
                ⟨k, _, hind⟩
              exact ⟨[k], by rw [hind, FieldPath.down_pre]⟩
            · exact (emitAll_spec children 0 (FieldPath.down fp)).2
      · rcases hg : FieldState.get st fp with _ | node
        · exact ⟨fun p hp => by simp at hp, by simp⟩
        · rcases node with v | children
          · exact ⟨fun p hp => by simp at hp, by simp⟩
          · have h2 : 1 ≤ (FieldPath.down (FieldPath.down fp)).last := by
              simp [FieldPath.down]
            constructor
            · intro p hp
              rcases (ihV (f.serializer.getD default) children 0
                  (FieldPath.down (FieldPath.down fp)) h2).1 p hp with ⟨k, suf, _, hind⟩
              exact ⟨k :: suf, by rw [hind, FieldPath.down_down_pre]⟩
            · exact (ihV (f.serializer.getD default) children 0
                (FieldPath.down (FieldPath.down fp)) h2).2
    · intro s fp st
      simp only [Serializer.get_field_paths]
      constructor
      · intro p hp
        rcases (ihL s.fields 0 fp st).1 p hp with ⟨k, suf, _, hind⟩
        exact ⟨k, suf, hind⟩
      · exact (ihL s.fields 0 fp st).2
    · intro l i0 fp st
      cases l with
      | nil =>
        simp only [Serializer.gfp_fields]
        exact ⟨fun p hp => by simp at hp, by simp⟩
      | cons f rest =>
        simp only [Serializer.gfp_fields]
        have hleft : ∀ p ∈ Fld.get_field_paths fuel f (FieldPath.set fp fp.last i0) st,
            ∃ suf2, p.indices = fp.pre ++ i0 :: suf2 := by
          intro p hp
          rcases (ihF f (FieldPath.set fp fp.last i0) st).1 p hp with ⟨suf, hind⟩
          refine ⟨suf, ?_⟩
          rw [hind, FieldPath.indices_set_last]
          simp
        constructor
        · intro p hp
          rcases List.mem_append.mp hp with hl | hr
          · rcases hleft p hl with ⟨suf, hind⟩
            exact ⟨i0, suf, le_refl _, hind⟩
          · rcases (ihL rest (i0 + 1) fp st).1 p hr with ⟨k, suf, hk, hind⟩
            exact ⟨k, suf, by omega, hind⟩
        · rw [List.pairwise_append]
          refine ⟨(ihF f (FieldPath.set fp fp.last i0) st).2,
            (ihL rest (i0 + 1) fp st).2, ?_⟩
          intro p hp q hq
          rcases hleft p hp with ⟨sufp, hindp⟩
          rcases (ihL rest (i0 + 1) fp st).1 q hq with ⟨k, sufq, hk, hindq⟩
          unfold pathLt
          rw [hindp, hindq, lexLt_append]
          exact lexLt_cons_lt _ _ (by omega)
    · intro s rows i0 fp hfp
      cases rows with
      | nil =>
        simp only [Fld.vt_rows]
        exact ⟨fun p hp => by simp at hp, by simp⟩
      | cons v rest =>
        rcases v with _ | node
        · simp only [Fld.vt_rows, List.nil_append]
          constructor
          · intro p hp
            rcases (ihV s rest (i0 + 1) fp hfp).1 p hp with ⟨k, suf, hk, hind⟩
            exact ⟨k, suf, by omega, hind⟩
          · exact (ihV s rest (i0 + 1) fp hfp).2
        · rcases node with vv | sub
          · simp only [Fld.vt_rows, List.nil_append]
            constructor
            · intro p hp
              rcases (ihV s rest (i0 + 1) fp hfp).1 p hp with ⟨k, suf, hk, hind⟩
              exact ⟨k, suf, by omega, hind⟩
            · exact (ihV s rest (i0 + 1) fp hfp).2
          · simp only [Fld.vt_rows]
            have hgrp : ∀ p ∈ Serializer.get_field_paths fuel s
                (FieldPath.set fp (fp.last - 1) i0) sub,
                ∃ suf2, p.indices = (List.range (fp.last - 1)).map fp.path ++ i0 :: suf2 := by
              intro p hp
              rcases (ihS s (FieldPath.set fp (fp.last - 1) i0) sub).1 p hp with
                ⟨m, suf, hind⟩
              refine ⟨m :: suf, ?_⟩
              rw [hind, FieldPath.pre_set_pred fp i0 hfp]
              simp
            constructor
            · intro p hp
              rcases List.mem_append.mp hp with hl | hr
              · rcases hgrp p hl with ⟨suf, hind⟩
                exact ⟨i0, suf, le_refl _, hind⟩
              · rcases (ihV s rest (i0 + 1) fp hfp).1 p hr with ⟨k, suf, hk, hind⟩
                exact ⟨k, suf, by omega, hind⟩
            · rw [List.pairwise_append]
              refine ⟨(ihS s (FieldPath.set fp (fp.last - 1) i0) sub).2,
                (ihV s rest (i0 + 1) fp hfp).2, ?_⟩
              intro p hp q hq
              rcases hgrp p hp with ⟨sufp, hindp⟩
              rcases (ihV s rest (i0 + 1) fp hfp).1 q hq with ⟨k, sufq, hk, hindq⟩
              unfold pathLt
              rw [hindp, hindq, lexLt_append]
              exact lexLt_cons_lt _ _ (by omega)

/-- C4 (amended): for all five field models the field-path traversal
yields its paths in strictly increasing lexicographic order of indices;
and a FixedArray field yields only paths whose slot is present in the
field state.  (The original claim's "yields no path whose slot is
absent" fails for the other leaf emissions: see the counterexample —
a Simple field's path is yielded without consulting the state, and a
VariableArray yields one path per slot of its sub-state, absent or
present.) -/
theorem get_field_paths_order :
    (∀ (fuel : Nat) (s : SerT) (fp : FieldPath) (st : FieldState),
      List.Pairwise pathLt (Serializer.get_field_paths fuel s fp st)) ∧
    (∀ (fuel : Nat) (f : Fld) (fp : FieldPath) (st : FieldState),
      List.Pairwise pathLt (Fld.get_field_paths fuel f fp st)) ∧
    (∀ (fuel : Nat) (f : Fld) (fp : FieldPath) (st : FieldState),
      f.model = FieldModels.fixedArray →
      ∀ p ∈ Fld.get_field_paths fuel f fp st,
        (FieldState.getAt st p.indices).isSome = true) := by
  refine ⟨fun fuel s fp st => ((gfp_spec fuel).2.1 s fp st).2,
    fun fuel f fp st => ((gfp_spec fuel).1 f fp st).2, ?_⟩
  intro fuel f fp st hm p hp
  cases fuel with
  | zero => simp [Fld.get_field_paths] at hp
  | succ fuel =>
    rw [Fld.get_field_paths] at hp
    rw [hm] at hp
    rcases hg : FieldState.get st fp with _ | node
    · rw [hg] at hp
      simp at hp
    · rcases node with v | children
      · rw [hg] at hp
        simp at hp
      · rw [hg] at hp
        rcases (emitPresent_spec children 0 (FieldPath.down fp)).1 p hp with
          ⟨k, _, hind, hpres⟩
        rw [hind, FieldPath.down_pre]
        unfold FieldState.getAt
        rw [getNode_append]
        have hget : States.getNode (States.fieldState st) fp.indices =
            some (States.fieldState children) := hg
        rw [hget]
        show (States.getNode (States.fieldState children) [k]).isSome = true
        rcases hk : children.getD k none with _ | sub
        · rw [Nat.sub_zero] at hpres
          exact absurd hk hpres
        · show (match children.getD k none with
            | some sub => States.getNode sub []
            | none => none).isSome = true
          rw [hk]
          cases sub <;> rfl

/-- C4 witness for the fixed-array present-slot conjunct: the single
path yielded over `exFaState` addresses the present slot 1. -/
theorem get_field_paths_order_witness :
    (FieldState.getAt exFaState exFaPath.indices).isSome = true := by
  refine get_field_paths_order.2.2 2 exFaField (FieldPath.set FieldPath.new 0 0)
    exFaState rfl exFaPath ?_
  rw [show Fld.get_field_paths 2 exFaField (FieldPath.set FieldPath.new 0 0) exFaState =
    [exFaPath] from rfl]
  exact List.mem_singleton_self _

/-- C4 counterexample: the traversal does yield paths whose slot in the
field state is absent.  Over `exVaSer` (one VariableArray field) and a
sub-state whose only slot is absent, the traversal yields the path
`[0, 0]` although the state holds nothing there; likewise a Simple
field's path `[0]` is yielded from an entirely empty state. -/
theorem get_field_paths_absent_counterexample :
    (Serializer.get_field_paths 5 exVaSer FieldPath.new exVaState).map
      FieldPath.indices = [[0, 0]] ∧
    (FieldState.getAt exVaState [0, 0]).isNone = true ∧
    (Serializer.get_field_paths 3 exSimpleSer FieldPath.new []).map
      FieldPath.indices = [[0]] ∧
    (FieldState.getAt ([] : FieldState) [0]).isNone = true :=
  ⟨rfl, rfl, rfl, rfl⟩

end D2
